import Mathlib

/-!
Verification development for the sqltemplate package.

The package has two core pieces:

* `escape.go`: `escapeTree` / `escapeNode`, a rewrite over the
  `text/template/parse` AST that appends a trailing `sqlliteral` command to
  the end of every output-producing pipeline.
* `PostgresLiteral`: the value-to-SQL-literal encoder registered under the
  template function name `sqlliteral`.

Both are embedded below as computable Lean definitions that follow the Go
source line by line, and the behavioural properties of the package are
proved about those definitions.
-/

namespace Sqltemplate

/-! ### The template parse tree

Embedding of the fragment of the `text/template/parse` node union that
`escapeNode` dispatches on.  Node kinds the rewriter never touches
(text, comments, template invocations, field/dot/variable arguments, ...)
are collapsed into `Node.text` / `Node.other` / `Arg.other`: the source
switch has no case for them, so they pass through unchanged and their
internal structure is never consulted.  Command arguments (`Arg`) are kept
opaque except for bare identifiers, because `escapeNode` never recurses
into a command and only inspects whether the final command of a pipe is a
single `parse.NodeIdentifier` with `Ident == "sqlliteral"`.  A Go
`nil *parse.ListNode` (an absent else-branch body, or an absent tree root)
is the explicit constructor `OList.nil`.
-/

/-- An argument node of a command.  `escapeNode` only ever inspects whether
an argument is a bare identifier (`parse.NodeIdentifier`) and what its
`Ident` string is; every other argument node kind is opaque to the
rewriter. -/
inductive Arg where
  | identifier (ident : String)
  | other
deriving DecidableEq, Repr

/-- Embedding of `parse.CommandNode`: an ordered sequence of argument nodes. -/
structure Cmd where
  args : List Arg
deriving DecidableEq, Repr

/-- Embedding of `parse.PipeNode`: optional variable-declaration targets (`Decl`,
modelled by their names) followed by a chain of commands (`Cmds`). -/
structure Pipe where
  decl : List String
  cmds : List Cmd
deriving DecidableEq, Repr

mutual

/-- The `text/template/parse` node union, restricted to the kinds
`escapeNode` has cases for, plus catch-all constructors for the kinds it
leaves untouched. -/
inductive Node where
  | action (pipe : Pipe)
  | ifNode (pipe : Pipe) (list : OList) (elseList : OList)
  | rangeNode (pipe : Pipe) (list : OList) (elseList : OList)
  | withNode (pipe : Pipe) (list : OList) (elseList : OList)
  | listNode (l : OList)
  | pipeNode (p : Pipe)
  | text (s : String)
  | other
deriving DecidableEq, Repr

/-- A possibly-nil `*parse.ListNode`: Go branch nodes carry a nil
`ElseList` pointer when there is no else branch, and `escapeNode` guards
`case *parse.ListNode: if v == nil return`. -/
inductive OList where
  | nil
  | mk (nodes : NodeList)
deriving DecidableEq, Repr

/-- The `Nodes` slice of a `parse.ListNode`. -/
inductive NodeList where
  | nil
  | cons (n : Node) (ns : NodeList)
deriving DecidableEq, Repr

end

/-- Embedding of `parse.Tree`, restricted to the only field the rewriter touches:
`Root *parse.ListNode`, which may be nil. -/
structure Tree where
  root : OList
deriving DecidableEq, Repr

/-! ### The escape rewrite (`escape.go`) -/

/-- The test from `escapeNode`'s `*parse.PipeNode` case:
`len(cmd.Args) == 1 && cmd.Args[0].Type() == parse.NodeIdentifier &&
cmd.Args[0].(*parse.IdentifierNode).Ident == "sqlliteral"`. -/
def isSqlliteralCmd (c : Cmd) : Bool :=
  match c.args with
  | [Arg.identifier id] => id == "sqlliteral"
  | _ => false

/-- The command appended by `escapeNode`: a fresh `parse.CommandNode`
whose `Args` is the single identifier `sqlliteral`
(`parse.NewIdentifier("sqlliteral")`; the `SetTree`/`SetPos` bookkeeping
carries no structural content). -/
def sqlliteralCmd : Cmd := ⟨[Arg.identifier "sqlliteral"]⟩

/-- The `*parse.PipeNode` case of `escapeNode`: skip pipes that declare
variables, skip empty pipes, skip pipes already ending in a bare
`sqlliteral` command, otherwise append `sqlliteralCmd`. -/
def escapePipe (p : Pipe) : Pipe :=
  if p.decl.length > 0 then p
  else
    match p.cmds.getLast? with
    | none => p
    | some cmd =>
      if isSqlliteralCmd cmd then p
      else ⟨p.decl, p.cmds ++ [sqlliteralCmd]⟩

mutual

/-- Embedding of `escapeNode`: the structural recursion of `escape.go`.  Action nodes
recurse into their pipe; branch nodes recurse into both bodies but not
into their own condition pipe; list nodes recurse into each child; pipe
nodes are rewritten by `escapePipe`; every other node kind is returned
unchanged (the Go switch has no case for it). -/
def escapeNode : Node → Node
  | Node.action p => Node.action (escapePipe p)
  | Node.ifNode p l e => Node.ifNode p (escapeOList l) (escapeOList e)
  | Node.rangeNode p l e => Node.rangeNode p (escapeOList l) (escapeOList e)
  | Node.withNode p l e => Node.withNode p (escapeOList l) (escapeOList e)
  | Node.listNode l => Node.listNode (escapeOList l)
  | Node.pipeNode p => Node.pipeNode (escapePipe p)
  | Node.text s => Node.text s
  | Node.other => Node.other

/-- The `*parse.ListNode` case of `escapeNode`: a nil list is a no-op,
otherwise recurse into each child. -/
def escapeOList : OList → OList
  | OList.nil => OList.nil
  | OList.mk ns => OList.mk (escapeNodeList ns)

/-- The loop `for _, n := range v.Nodes` applying `escapeNode` to each child. -/
def escapeNodeList : NodeList → NodeList
  | NodeList.nil => NodeList.nil
  | NodeList.cons n ns => NodeList.cons (escapeNode n) (escapeNodeList ns)

end

/-- Embedding of `escapeTree`: return the tree unchanged when `t.Root == nil`,
otherwise rewrite the root list in place and return the tree. -/
def escapeTree (t : Tree) : Tree :=
  match t.root with
  | OList.nil => t
  | OList.mk ns => ⟨OList.mk (escapeNodeList ns)⟩

/-! ### Runtime values and the literal encoder (`types.go`, `PostgresLiteral`)

The encoder is a Go type switch over `interface{}`.  We embed the dynamic
value as a closed inductive `Value` with one constructor per case of the
switch (Go nil-able pointer kinds become `Option`-carrying constructors),
plus:

* `Value.vValuer`: a value whose dynamic type implements
  `database/sql/driver.Valuer`; it carries its `%T` type name and the
  result of its `Value()` call (a value or an error string);
* `Value.vUnsupported`: a value of any dynamic type outside the switch,
  carrying its `%T` type name.

Three leaf renderings that Go delegates to the standard library are
carried as opaque text on the value itself, because no claim constrains
them beyond pass-through: the `%g` rendering of a finite `float64`
(`Float64.finite`), and the `time.RFC3339Nano` rendering of a `time.Time`
(`TimeV.rfc`).  Non-finite floats are explicit constructors.  A `[]byte`
is `Option (List Nat)` (nil slice or byte list); `%d` on integers is
embedded below as `intDec`, and `strings.ReplaceAll` with a one-character
pattern as `replaceAllChar`.
-/

/-- Embedding of `RawSQL` (`types.go`): a trusted SQL fragment inserted verbatim. -/
structure RawSQL where
  val : String
deriving DecidableEq, Repr

/-- A `float64`, split by the tests `math.IsInf`/`math.IsNaN` performed in
`postgresLiteralFloat`; a finite float carries its `%g` rendering. -/
inductive Float64 where
  | posInf
  | negInf
  | nan
  | finite (g : String)
deriving DecidableEq, Repr

/-- A `time.Time`, carrying its `Format(time.RFC3339Nano)` rendering. -/
structure TimeV where
  rfc : String
deriving DecidableEq, Repr

/-- The dynamic Go value passed to `PostgresLiteral`, one constructor per
case of its type switch. -/
inductive Value where
  | vNil
  | vRawSQL (r : RawSQL)
  | vIdentifier (s : String)
  | vBool (b : Bool)
  | vBoolPtr (p : Option Bool)
  | vBytes (b : Option (List Nat))
  | vFloat (f : Float64)
  | vFloatPtr (p : Option Float64)
  | vInt (i : Int)
  | vIntPtr (p : Option Int)
  | vInt64 (i : Int)
  | vInt64Ptr (p : Option Int)
  | vString (s : String)
  | vStringPtr (p : Option String)
  | vTime (t : TimeV)
  | vTimePtr (p : Option TimeV)
  | vValuer (tyName : String) (res : Except String Value)
  | vUnsupported (tyName : String)
deriving Repr

/-- The `%T` name of a value's dynamic Go type, as used by
`fmt.Errorf("unknown type %T", v)`. -/
def typeName : Value → String
  | Value.vNil => "<nil>"
  | Value.vRawSQL _ => "sqltemplate.RawSQL"
  | Value.vIdentifier _ => "sqltemplate.Identifier"
  | Value.vBool _ => "bool"
  | Value.vBoolPtr _ => "*bool"
  | Value.vBytes _ => "[]uint8"
  | Value.vFloat _ => "float64"
  | Value.vFloatPtr _ => "*float64"
  | Value.vInt _ => "int"
  | Value.vIntPtr _ => "*int"
  | Value.vInt64 _ => "int64"
  | Value.vInt64Ptr _ => "*int64"
  | Value.vString _ => "string"
  | Value.vStringPtr _ => "*string"
  | Value.vTime _ => "time.Time"
  | Value.vTimePtr _ => "*time.Time"
  | Value.vValuer n _ => n
  | Value.vUnsupported n => n

/-- The single-quote character, `U+0027`. -/
def sqChar : Char := Char.ofNat 39

/-- The double-quote character, `U+0022`. -/
def dqChar : Char := Char.ofNat 34

/-- The one-character string holding a single quote. -/
def sqStr : String := String.mk [sqChar]

/-- The one-character string holding a double quote. -/
def dqStr : String := String.mk [dqChar]

/-- Embedding of `strings.ReplaceAll(s, pat, rep)` for a one-character pattern `pat`:
every occurrence of `pat` (which, for a single character, is every
occurrence of that character) is replaced by `rep`. -/
def replaceAllChar (s : String) (pat : Char) (rep : String) : String :=
  String.mk (s.data.flatMap (fun ch => if ch = pat then rep.data else [ch]))

/-- Decimal digit characters: `digitChar d` is the character for digit
`d < 10`. -/
def digitChar (d : Nat) : Char := Char.ofNat (48 + d)

/-- The decimal digit list of a natural number, most significant first
(the digits of `%d` on a non-negative integer). -/
def natDecList (n : Nat) : List Char :=
  if _h : n < 10 then [digitChar n]
  else natDecList (n / 10) ++ [digitChar (n % 10)]
  termination_by n
  decreasing_by exact Nat.div_lt_self (by omega) (by omega)

/-- The decimal text of a natural number. -/
def natDec (n : Nat) : String := String.mk (natDecList n)

/-- Embedding of `fmt.Sprintf("%d", i)` for a signed integer: decimal digits, with a
leading minus sign when negative. -/
def intDec : Int → String
  | Int.ofNat n => natDec n
  | Int.negSucc m => "-" ++ natDec (m + 1)

/-- An uppercase hexadecimal digit character: `0`-`9` then `A`-`F`. -/
def hexDigit (d : Nat) : Char :=
  if d < 10 then Char.ofNat (48 + d) else Char.ofNat (55 + d)

/-- Rendering `%X` of one byte: exactly two uppercase hexadecimal digits. -/
def byteHex (b : Nat) : List Char :=
  [hexDigit (b % 256 / 16), hexDigit (b % 16)]

/-- Rendering `%X` of a `[]byte`: each byte as two uppercase hex digits, in order. -/
def bytesHex (bs : List Nat) : String :=
  String.mk (bs.flatMap byteHex)

/-- Embedding of `postgresLiteralBool` from the source. -/
def postgresLiteralBool (b : Bool) : RawSQL :=
  if b then ⟨"TRUE"⟩ else ⟨"FALSE"⟩

/-- Embedding of `postgresLiteralFloat` from the source: non-finite floats become the
quoted words, a finite float is its `%g` text. -/
def postgresLiteralFloat : Float64 → RawSQL
  | Float64.posInf => ⟨sqStr ++ "Infinity" ++ sqStr⟩
  | Float64.negInf => ⟨sqStr ++ "-Infinity" ++ sqStr⟩
  | Float64.nan => ⟨sqStr ++ "NaN" ++ sqStr⟩
  | Float64.finite g => ⟨g⟩

/-- A string literal: single-quoted, every embedded single quote doubled
(the code for both the `string` and `*string` cases). -/
def stringLit (s : String) : RawSQL :=
  ⟨sqStr ++ replaceAllChar s sqChar (sqStr ++ sqStr) ++ sqStr⟩

/-- The type switch of `PostgresLiteral`, i.e. the function body after
the `driver.Valuer` pre-step has (possibly) replaced `v`.  A dynamic type
with no case — including a value whose `Value()` result is itself a
`Valuer` — falls through to `unknown type %T`. -/
def postgresDispatch : Value → Except String RawSQL
  | Value.vRawSQL r => Except.ok r
  | Value.vIdentifier s =>
      Except.ok ⟨dqStr ++ replaceAllChar s dqChar (dqStr ++ dqStr) ++ dqStr⟩
  | Value.vBoolPtr none => Except.ok ⟨"NULL"⟩
  | Value.vBoolPtr (some b) => Except.ok (postgresLiteralBool b)
  | Value.vBool b => Except.ok (postgresLiteralBool b)
  | Value.vBytes none => Except.ok ⟨"NULL"⟩
  | Value.vBytes (some bs) => Except.ok ⟨sqStr ++ "\\x" ++ bytesHex bs ++ sqStr⟩
  | Value.vFloatPtr none => Except.ok ⟨"NULL"⟩
  | Value.vFloatPtr (some f) => Except.ok (postgresLiteralFloat f)
  | Value.vFloat f => Except.ok (postgresLiteralFloat f)
  | Value.vIntPtr none => Except.ok ⟨"NULL"⟩
  | Value.vIntPtr (some i) => Except.ok ⟨intDec i⟩
  | Value.vInt i => Except.ok ⟨intDec i⟩
  | Value.vInt64Ptr none => Except.ok ⟨"NULL"⟩
  | Value.vInt64Ptr (some i) => Except.ok ⟨intDec i⟩
  | Value.vInt64 i => Except.ok ⟨intDec i⟩
  | Value.vNil => Except.ok ⟨"NULL"⟩
  | Value.vStringPtr none => Except.ok ⟨"NULL"⟩
  | Value.vStringPtr (some s) => Except.ok (stringLit s)
  | Value.vString s => Except.ok (stringLit s)
  | Value.vTimePtr none => Except.ok ⟨"NULL"⟩
  | Value.vTimePtr (some t) => Except.ok ⟨sqStr ++ t.rfc ++ sqStr⟩
  | Value.vTime t => Except.ok ⟨sqStr ++ t.rfc ++ sqStr⟩
  | v => Except.error ("unknown type " ++ typeName v)

/-- Embedding of `PostgresLiteral`: if the value implements `driver.Valuer`, call
`Value()` once — propagating its error with no literal output — and then
run the type switch on the result; otherwise run the type switch on the
value itself. -/
def PostgresLiteral (v : Value) : Except String RawSQL :=
  match v with
  | Value.vValuer _ (Except.error e) => Except.error e
  | Value.vValuer _ (Except.ok v1) => postgresDispatch v1
  | _ => postgresDispatch v

/-! ### Coverage predicates for the rewrite

Spec-side observation predicates for the coverage property: a pipe is
*output-producing* when it declares no variables and has at least one
command; the coverage invariant asks that such a pipe, wherever it is
reachable through Action/If/Range/With/List structure, end in a trailing
bare `sqlliteral` command.  The `Exact` variants additionally demand that
the command *before* the trailing encoder not itself be a bare
`sqlliteral` command ("exactly one trailing encoder call"). -/

/-- The final command of the list is a bare `sqlliteral` reference. -/
def lastCmdIsEncoder (cmds : List Cmd) : Bool :=
  match cmds.getLast? with
  | none => false
  | some c => isSqlliteralCmd c

/-- A pipe is output-producing when it declares no variables and has at
least one command. -/
def outputProducing (p : Pipe) : Bool :=
  p.decl.isEmpty && !p.cmds.isEmpty

/-- Every output-producing pipe must end in a bare encoder command. -/
def pipeEscaped (p : Pipe) : Bool :=
  !outputProducing p || lastCmdIsEncoder p.cmds

/-- Every output-producing pipe must end in *exactly one* trailing bare
encoder command: the last command is one, the one before it is not. -/
def pipeEscapedExact (p : Pipe) : Bool :=
  !outputProducing p ||
    (lastCmdIsEncoder p.cmds && !lastCmdIsEncoder p.cmds.dropLast)

mutual

/-- Requires `pipeEscaped` at every pipe reachable through
Action/If/Range/With/List structure (branch condition pipes are not
output-producing and are not visited). -/
def nodeEscaped : Node → Bool
  | Node.action p => pipeEscaped p
  | Node.ifNode _ l e => oListEscaped l && oListEscaped e
  | Node.rangeNode _ l e => oListEscaped l && oListEscaped e
  | Node.withNode _ l e => oListEscaped l && oListEscaped e
  | Node.listNode l => oListEscaped l
  | Node.pipeNode p => pipeEscaped p
  | Node.text _ => true
  | Node.other => true

def oListEscaped : OList → Bool
  | OList.nil => true
  | OList.mk ns => nodeListEscaped ns

def nodeListEscaped : NodeList → Bool
  | NodeList.nil => true
  | NodeList.cons n ns => nodeEscaped n && nodeListEscaped ns

end

mutual

/-- Requires `pipeEscapedExact` at every reachable pipe. -/
def nodeEscapedExact : Node → Bool
  | Node.action p => pipeEscapedExact p
  | Node.ifNode _ l e => oListEscapedExact l && oListEscapedExact e
  | Node.rangeNode _ l e => oListEscapedExact l && oListEscapedExact e
  | Node.withNode _ l e => oListEscapedExact l && oListEscapedExact e
  | Node.listNode l => oListEscapedExact l
  | Node.pipeNode p => pipeEscapedExact p
  | Node.text _ => true
  | Node.other => true

def oListEscapedExact : OList → Bool
  | OList.nil => true
  | OList.mk ns => nodeListEscapedExact ns

def nodeListEscapedExact : NodeList → Bool
  | NodeList.nil => true
  | NodeList.cons n ns => nodeEscapedExact n && nodeListEscapedExact ns

end

/-- Requires `pipeEscaped` at every pipe reachable from the tree root. -/
def treeEscaped (t : Tree) : Bool := oListEscaped t.root

/-- Requires `pipeEscapedExact` at every pipe reachable from the tree root. -/
def treeEscapedExact (t : Tree) : Bool := oListEscapedExact t.root

/-! ### Lemmas about the rewrite -/

theorem getLast_concat (l : List α) (a : α) : (l ++ [a]).getLast? = some a := by
  rw [List.getLast?_append_cons]
  rfl

theorem isSqlliteralCmd_sqlliteralCmd : isSqlliteralCmd sqlliteralCmd = true := by
  decide

/-- The rewrite `escapePipe` either leaves a pipe unchanged or appends exactly the
one fresh encoder command. -/
theorem escapePipe_eq_or_append (p : Pipe) :
    escapePipe p = p ∨ escapePipe p = ⟨p.decl, p.cmds ++ [sqlliteralCmd]⟩ := by
  unfold escapePipe
  split
  · exact Or.inl rfl
  · split
    · exact Or.inl rfl
    · split
      · exact Or.inl rfl
      · exact Or.inr rfl

/-- After `escapePipe`, every output-producing pipe ends in a bare
encoder command. -/
theorem pipeEscaped_escapePipe (p : Pipe) : pipeEscaped (escapePipe p) = true := by
  unfold escapePipe
  split
  · rename_i hdecl
    have : ¬ p.decl.isEmpty = true := by
      cases hd : p.decl with
      | nil => rw [hd] at hdecl; simp at hdecl
      | cons a as => simp
    simp [pipeEscaped, outputProducing, this]
  · split
    · rename_i hlast
      have hnil : p.cmds = [] := by
        cases hc : p.cmds with
        | nil => rfl
        | cons c cs => rw [hc] at hlast; simp [List.getLast?] at hlast
      simp [pipeEscaped, outputProducing, hnil]
    · split
      · rename_i cmd hlast hsql
        simp [pipeEscaped, lastCmdIsEncoder, hlast, hsql]
      · simp [pipeEscaped, lastCmdIsEncoder, getLast_concat,
          isSqlliteralCmd_sqlliteralCmd]

mutual

theorem nodeEscaped_escapeNode (n : Node) : nodeEscaped (escapeNode n) = true := by
  cases n with
  | action p => simp only [escapeNode, nodeEscaped]; exact pipeEscaped_escapePipe p
  | ifNode p l e =>
    simp only [escapeNode, nodeEscaped]
    rw [oListEscaped_escapeOList l, oListEscaped_escapeOList e]
    rfl
  | rangeNode p l e =>
    simp only [escapeNode, nodeEscaped]
    rw [oListEscaped_escapeOList l, oListEscaped_escapeOList e]
    rfl
  | withNode p l e =>
    simp only [escapeNode, nodeEscaped]
    rw [oListEscaped_escapeOList l, oListEscaped_escapeOList e]
    rfl
  | listNode l =>
    simp only [escapeNode, nodeEscaped]
    exact oListEscaped_escapeOList l
  | pipeNode p => simp only [escapeNode, nodeEscaped]; exact pipeEscaped_escapePipe p
  | text s => rfl
  | other => rfl

theorem oListEscaped_escapeOList (l : OList) : oListEscaped (escapeOList l) = true := by
  cases l with
  | nil => rfl
  | mk ns =>
    simp only [escapeOList, oListEscaped]
    exact nodeListEscaped_escapeNodeList ns

theorem nodeListEscaped_escapeNodeList (ns : NodeList) :
    nodeListEscaped (escapeNodeList ns) = true := by
  cases ns with
  | nil => rfl
  | cons n ns =>
    simp only [escapeNodeList, nodeListEscaped]
    rw [nodeEscaped_escapeNode n, nodeListEscaped_escapeNodeList ns]
    rfl

end

/-- The rewrite `escapePipe` leaves an already-escaped pipe unchanged. -/
theorem escapePipe_append_fixed (decl : List String) (cmds : List Cmd) :
    escapePipe ⟨decl, cmds ++ [sqlliteralCmd]⟩ = ⟨decl, cmds ++ [sqlliteralCmd]⟩ := by
  unfold escapePipe
  split
  · rfl
  · split
    · rfl
    · rename_i cmd hlast
      rw [show Pipe.cmds ⟨decl, cmds ++ [sqlliteralCmd]⟩ = cmds ++ [sqlliteralCmd] from rfl,
        getLast_concat] at hlast
      cases hlast
      rw [if_pos isSqlliteralCmd_sqlliteralCmd]

theorem escapePipe_idem (p : Pipe) : escapePipe (escapePipe p) = escapePipe p := by
  rcases escapePipe_eq_or_append p with h | h
  · rw [h, h]
  · rw [h]
    exact escapePipe_append_fixed p.decl p.cmds

mutual

theorem escapeNode_idem (n : Node) : escapeNode (escapeNode n) = escapeNode n := by
  cases n with
  | action p => simp only [escapeNode]; rw [escapePipe_idem p]
  | ifNode p l e =>
    simp only [escapeNode]
    rw [escapeOList_idem l, escapeOList_idem e]
  | rangeNode p l e =>
    simp only [escapeNode]
    rw [escapeOList_idem l, escapeOList_idem e]
  | withNode p l e =>
    simp only [escapeNode]
    rw [escapeOList_idem l, escapeOList_idem e]
  | listNode l => simp only [escapeNode]; rw [escapeOList_idem l]
  | pipeNode p => simp only [escapeNode]; rw [escapePipe_idem p]
  | text s => rfl
  | other => rfl

theorem escapeOList_idem (l : OList) : escapeOList (escapeOList l) = escapeOList l := by
  cases l with
  | nil => rfl
  | mk ns => simp only [escapeOList]; rw [escapeNodeList_idem ns]

theorem escapeNodeList_idem (ns : NodeList) :
    escapeNodeList (escapeNodeList ns) = escapeNodeList ns := by
  cases ns with
  | nil => rfl
  | cons n ns =>
    simp only [escapeNodeList]
    rw [escapeNode_idem n, escapeNodeList_idem ns]

end

/-! ### Claim theorems about the rewrite -/

/-- The parse tree of the well-formed template source
`{{. | sqlliteral | sqlliteral}}`: one action whose pipe declares no
variables and whose three commands are the dot and two user-written bare
`sqlliteral` calls.  The parser accepts this source (the function name is
registered), and `escapeNode` leaves the pipe alone because its last
command is already a bare encoder reference — so the pipe ends with two
trailing encoder commands, not one. -/
def doubleEncoderTree : Tree :=
  ⟨OList.mk (NodeList.cons
    (Node.action ⟨[], [⟨[Arg.other]⟩, ⟨[Arg.identifier "sqlliteral"]⟩,
      ⟨[Arg.identifier "sqlliteral"]⟩]⟩)
    NodeList.nil)⟩

/-- C1, as stated, is false: on the well-formed parse tree of
`{{. | sqlliteral | sqlliteral}}` the rewritten tree has an
output-producing pipe that ends with two trailing bare `sqlliteral`
commands rather than exactly one. -/
theorem C1_exactly_one_counterexample :
    treeEscapedExact (escapeTree doubleEncoderTree) = false := by decide

/-- C1 (amended): after the escape rewrite, every output-producing pipe
reachable through nested Action/If/Range/With/List structures (including
else branches) ends with a trailing command that is a bare reference to
the encoder name `sqlliteral`; moreover the rewrite changes a pipe only
by appending that single fresh encoder command (so a pipe that did not
already end in one gains exactly one). -/
theorem C1_escape_coverage :
    (∀ t : Tree, treeEscaped (escapeTree t) = true) ∧
    (∀ p : Pipe, escapePipe p = p ∨ escapePipe p = ⟨p.decl, p.cmds ++ [sqlliteralCmd]⟩) := by
  constructor
  · intro t
    cases t with
    | mk r =>
      cases r with
      | nil => rfl
      | mk ns =>
        simp only [escapeTree, treeEscaped, oListEscaped]
        exact nodeListEscaped_escapeNodeList ns
  · exact escapePipe_eq_or_append

/-- C2: the escape rewrite is idempotent — rewriting a rewritten tree
is the identity, and in particular a pipe that already ends in a bare
`sqlliteral` command (every such command equals `sqlliteralCmd`, since a
command is determined by its argument list) is left unmodified, whatever
its declarations and earlier commands. -/
theorem C2_escape_idempotent :
    (∀ t : Tree, escapeTree (escapeTree t) = escapeTree t) ∧
    (∀ (decl : List String) (cmds : List Cmd),
      escapePipe ⟨decl, cmds ++ [sqlliteralCmd]⟩ = ⟨decl, cmds ++ [sqlliteralCmd]⟩) := by
  constructor
  · intro t
    cases t with
    | mk r =>
      cases r with
      | nil => rfl
      | mk ns =>
        simp only [escapeTree]
        rw [escapeNodeList_idem ns]
  · exact escapePipe_append_fixed

/-- C4: a pipe that declares one or more variables is returned by the
rewrite exactly as parsed — no encoder command is appended — whether it
is met as a bare pipe node or as the pipe of an action node. -/
theorem C4_decl_pipe_untouched :
    ∀ (d : String) (ds : List String) (cmds : List Cmd),
      escapePipe ⟨d :: ds, cmds⟩ = ⟨d :: ds, cmds⟩ ∧
      escapeNode (Node.action ⟨d :: ds, cmds⟩) = Node.action ⟨d :: ds, cmds⟩ ∧
      escapeNode (Node.pipeNode ⟨d :: ds, cmds⟩) = Node.pipeNode ⟨d :: ds, cmds⟩ := by
  intro d ds cmds
  have h : escapePipe ⟨d :: ds, cmds⟩ = ⟨d :: ds, cmds⟩ := by
    unfold escapePipe
    simp
  refine ⟨h, ?_, ?_⟩
  · simp only [escapeNode]
    rw [h]
  · simp only [escapeNode]
    rw [h]

/-- C8: on every If/Range/With node the rewrite recurses into the primary
body and the else body but returns the node's own condition/iterand pipe
identically — the pipe component after rewriting is the very pipe that
was there before. -/
theorem C8_condition_pipe_preserved :
    ∀ (p : Pipe) (l e : OList),
      escapeNode (Node.ifNode p l e) = Node.ifNode p (escapeOList l) (escapeOList e) ∧
      escapeNode (Node.rangeNode p l e) = Node.rangeNode p (escapeOList l) (escapeOList e) ∧
      escapeNode (Node.withNode p l e) = Node.withNode p (escapeOList l) (escapeOList e) :=
  fun _ _ _ => ⟨rfl, rfl, rfl⟩

/-- C9: the escape rewrite is a total function with no error path — it is
defined (and, being structurally recursive, terminating) on every tree,
equals the in-place rewrite of the root, returns a tree with an absent
(nil) root unchanged, leaves a pipe with zero commands unchanged, and
treats an absent (nil) else-body list as a no-op. -/
theorem C9_escape_total :
    (∀ t : Tree, escapeTree t = ⟨escapeOList t.root⟩) ∧
    escapeTree ⟨OList.nil⟩ = ⟨OList.nil⟩ ∧
    (∀ decl : List String, escapePipe ⟨decl, ([] : List Cmd)⟩ = ⟨decl, []⟩) ∧
    escapeOList OList.nil = OList.nil := by
  refine ⟨?_, rfl, ?_, rfl⟩
  · intro t
    cases t with
    | mk r => cases r <;> rfl
  · intro decl
    unfold escapePipe
    split
    · rfl
    · split
      · rfl
      · rename_i cmd hlast
        simp at hlast

/-! ### Claim theorems about the encoder -/

/-- An uppercase hexadecimal digit character: `0`-`9` or `A`-`F`. -/
def isUpperHexDigit (c : Char) : Bool :=
  (digitChar 0 ≤ c && c ≤ digitChar 9) ||
  (Char.ofNat 65 ≤ c && c ≤ Char.ofNat 70)

theorem isUpperHexDigit_hexDigit (d : Nat) (h : d < 16) :
    isUpperHexDigit (hexDigit d) = true := by
  interval_cases d <;> decide

theorem byteHex_upper (b : Nat) : (byteHex b).all isUpperHexDigit = true := by
  have h1 : b % 256 / 16 < 16 := by omega
  have h2 : b % 16 < 16 := by omega
  simp [byteHex, isUpperHexDigit_hexDigit _ h1, isUpperHexDigit_hexDigit _ h2]

theorem bytesHex_upper (bs : List Nat) :
    (bytesHex bs).data.all isUpperHexDigit = true := by
  induction bs with
  | nil => rfl
  | cons b bs ih =>
    simp only [bytesHex, List.flatMap_cons] at *
    rw [List.all_append]
    rw [byteHex_upper b]
    simpa [bytesHex] using ih

theorem bytesHex_length (bs : List Nat) :
    (bytesHex bs).data.length = 2 * bs.length := by
  induction bs with
  | nil => rfl
  | cons b bs ih =>
    simp only [bytesHex, List.flatMap_cons, List.length_append] at *
    rw [ih]
    simp [byteHex, List.length_cons]
    omega

/-- C3: the encoder reproduces the spec's correctness table exactly —
`NULL` for nil, `TRUE`/`FALSE` for booleans, a single-quoted text with
every embedded single quote doubled for strings, a double-quoted text
with every embedded double quote doubled for identifier markers, the raw
fragment verbatim for raw-SQL markers, a quoted `\x`-prefixed uppercase
hex rendering (two digits per byte) for non-null byte slices, and the
quoted words for the three non-finite floats. -/
theorem C3_encoding_table :
    PostgresLiteral Value.vNil = Except.ok ⟨"NULL"⟩ ∧
    PostgresLiteral (Value.vBool true) = Except.ok ⟨"TRUE"⟩ ∧
    PostgresLiteral (Value.vBool false) = Except.ok ⟨"FALSE"⟩ ∧
    (∀ s : String, PostgresLiteral (Value.vString s) =
      Except.ok ⟨sqStr ++ String.mk (s.data.flatMap
        (fun c => if c = sqChar then [sqChar, sqChar] else [c])) ++ sqStr⟩) ∧
    (∀ s : String, PostgresLiteral (Value.vIdentifier s) =
      Except.ok ⟨dqStr ++ String.mk (s.data.flatMap
        (fun c => if c = dqChar then [dqChar, dqChar] else [c])) ++ dqStr⟩) ∧
    (∀ r : RawSQL, PostgresLiteral (Value.vRawSQL r) = Except.ok r) ∧
    (∀ bs : List Nat, PostgresLiteral (Value.vBytes (some bs)) =
      Except.ok ⟨sqStr ++ "\\x" ++ bytesHex bs ++ sqStr⟩ ∧
      (bytesHex bs).data.all isUpperHexDigit = true ∧
      (bytesHex bs).data.length = 2 * bs.length) ∧
    PostgresLiteral (Value.vFloat Float64.posInf) =
      Except.ok ⟨sqStr ++ "Infinity" ++ sqStr⟩ ∧
    PostgresLiteral (Value.vFloat Float64.negInf) =
      Except.ok ⟨sqStr ++ "-Infinity" ++ sqStr⟩ ∧
    PostgresLiteral (Value.vFloat Float64.nan) =
      Except.ok ⟨sqStr ++ "NaN" ++ sqStr⟩ := by
  refine ⟨rfl, rfl, rfl, fun s => rfl, fun s => rfl, fun r => rfl,
    fun bs => ⟨rfl, bytesHex_upper bs, bytesHex_length bs⟩, rfl, rfl, rfl⟩

/-- C7: every absent/null input — the nil interface value, a nil pointer
of each supported pointer kind, and a nil byte slice — encodes to the
bare text `NULL` with no error. -/
theorem C7_null_inputs :
    PostgresLiteral Value.vNil = Except.ok ⟨"NULL"⟩ ∧
    PostgresLiteral (Value.vBoolPtr none) = Except.ok ⟨"NULL"⟩ ∧
    PostgresLiteral (Value.vFloatPtr none) = Except.ok ⟨"NULL"⟩ ∧
    PostgresLiteral (Value.vIntPtr none) = Except.ok ⟨"NULL"⟩ ∧
    PostgresLiteral (Value.vInt64Ptr none) = Except.ok ⟨"NULL"⟩ ∧
    PostgresLiteral (Value.vStringPtr none) = Except.ok ⟨"NULL"⟩ ∧
    PostgresLiteral (Value.vTimePtr none) = Except.ok ⟨"NULL"⟩ ∧
    PostgresLiteral (Value.vBytes none) = Except.ok ⟨"NULL"⟩ :=
  ⟨rfl, rfl, rfl, rfl, rfl, rfl, rfl, rfl⟩

/-- C10: the encoder is idempotent on its own output — a literal it
returns is a `RawSQL` value, and encoding that value again hits the
verbatim pass-through case and returns it unchanged. -/
theorem C10_raw_idempotent :
    ∀ (v : Value) (L : RawSQL),
      PostgresLiteral v = Except.ok L →
      PostgresLiteral (Value.vRawSQL L) = Except.ok L := by
  intro v L _h
  rfl

/-- Witness for C10 at a concrete input: `nil` encodes to `NULL`, and
re-encoding the returned `NULL` literal returns it unchanged. -/
theorem C10_raw_idempotent_witness :
    PostgresLiteral Value.vNil = Except.ok ⟨"NULL"⟩ ∧
    PostgresLiteral (Value.vRawSQL ⟨"NULL"⟩) = Except.ok ⟨"NULL"⟩ :=
  ⟨rfl, C10_raw_idempotent Value.vNil ⟨"NULL"⟩ rfl⟩

/-! ### Decimal rendering lemmas (for the integer row of the table) -/

/-- The numeric value denoted by a list of decimal digit characters. -/
def listValNat (cs : List Char) : Nat :=
  cs.foldl (fun a c => a * 10 + (c.toNat - 48)) 0

/-- Whether the first character of a string is the digit zero. -/
def headIsZero (s : String) : Bool :=
  match s.data with
  | [] => false
  | c :: _ => c == digitChar 0

theorem natDecList_eq (n : Nat) :
    natDecList n =
      if n < 10 then [digitChar n]
      else natDecList (n / 10) ++ [digitChar (n % 10)] := by
  rw [natDecList]
  split <;> simp

theorem natDecList_ne_nil (n : Nat) : natDecList n ≠ [] := by
  rw [natDecList_eq]
  split <;> simp

theorem digitChar_isDigit {d : Nat} (h : d < 10) : (digitChar d).isDigit = true := by
  interval_cases d <;> decide

theorem digitChar_toNat {d : Nat} (h : d < 10) : (digitChar d).toNat = 48 + d := by
  interval_cases d <;> decide

theorem natDecList_head_ne_zero :
    ∀ n, 1 ≤ n → ∀ c, (natDecList n).head? = some c → c ≠ digitChar 0 := by
  intro n
  induction n using Nat.strong_induction_on with
  | _ n ih =>
    intro h1 c hc
    rw [natDecList_eq] at hc
    by_cases h : n < 10
    · rw [if_pos h] at hc
      simp only [List.head?_cons, Option.some.injEq] at hc
      subst hc
      interval_cases n <;> decide
    · rw [if_neg h] at hc
      cases hxs : natDecList (n / 10) with
      | nil => exact absurd hxs (natDecList_ne_nil _)
      | cons a as =>
        rw [hxs] at hc
        simp only [List.cons_append, List.head?_cons, Option.some.injEq] at hc
        subst hc
        exact ih (n / 10) (Nat.div_lt_self (by omega) (by omega)) (by omega) _
          (by rw [hxs]; rfl)

theorem natDecList_digits : ∀ n, (natDecList n).all Char.isDigit = true := by
  intro n
  induction n using Nat.strong_induction_on with
  | _ n ih =>
    rw [natDecList_eq]
    by_cases h : n < 10
    · rw [if_pos h]
      simp [digitChar_isDigit h]
    · rw [if_neg h]
      rw [List.all_append]
      rw [ih (n / 10) (Nat.div_lt_self (by omega) (by omega))]
      simp [digitChar_isDigit (show n % 10 < 10 by omega)]

theorem listValNat_natDecList : ∀ n, listValNat (natDecList n) = n := by
  intro n
  induction n using Nat.strong_induction_on with
  | _ n ih =>
    rw [natDecList_eq]
    by_cases h : n < 10
    · rw [if_pos h]
      simp [listValNat, List.foldl, digitChar_toNat h]
    · rw [if_neg h]
      unfold listValNat
      rw [List.foldl_append]
      have hval : List.foldl (fun a c => a * 10 + (c.toNat - 48)) 0 (natDecList (n / 10)) = n / 10 :=
        ih (n / 10) (Nat.div_lt_self (by omega) (by omega))
      rw [hval]
      simp only [List.foldl]
      rw [digitChar_toNat (show n % 10 < 10 by omega)]
      omega

theorem headIsZero_natDec_succ (n : Nat) : headIsZero (natDec (n + 1)) = false := by
  unfold headIsZero natDec
  cases hxs : natDecList (n + 1) with
  | nil => exact absurd hxs (natDecList_ne_nil _)
  | cons a as =>
    have ha : a ≠ digitChar 0 :=
      natDecList_head_ne_zero (n + 1) (by omega) a (by rw [hxs]; rfl)
    simpa using ha

/-- C6: every signed integer value — `int` or `int64`, directly or
through a non-nil pointer — encodes without error to its decimal text
`intDec i`; that text is the plain digit string `natDec n` for
non-negative values and a minus sign followed by `natDec (m+1)` for
negatives, the digit string never starts with the digit zero except for
the number `0` itself (whose text is exactly `"0"`), consists only of
decimal digits, and denotes the encoded number. -/
theorem C6_integer_decimal :
    ∀ (i : Int) (n m : Nat),
      PostgresLiteral (Value.vInt i) = Except.ok ⟨intDec i⟩ ∧
      PostgresLiteral (Value.vInt64 i) = Except.ok ⟨intDec i⟩ ∧
      PostgresLiteral (Value.vIntPtr (some i)) = Except.ok ⟨intDec i⟩ ∧
      PostgresLiteral (Value.vInt64Ptr (some i)) = Except.ok ⟨intDec i⟩ ∧
      intDec (Int.ofNat n) = natDec n ∧
      intDec (Int.negSucc m) = "-" ++ natDec (m + 1) ∧
      (intDec (Int.negSucc m)).data.head? = some (Char.ofNat 45) ∧
      headIsZero (natDec (n + 1)) = false ∧
      natDec 0 = "0" ∧
      (natDec n).data.all Char.isDigit = true ∧
      listValNat (natDec n).data = n := by
  intro i n m
  refine ⟨rfl, rfl, rfl, rfl, rfl, rfl, ?_, headIsZero_natDec_succ n, ?_, ?_, ?_⟩
  · show (("-" ++ natDec (m + 1)).data.head?) = some (Char.ofNat 45)
    rw [String.data_append]
    rfl
  · unfold natDec
    rw [natDecList_eq]
    rfl
  · exact natDecList_digits n
  · exact listValNat_natDecList n

/-! ### Valuer resolution and the error contract -/

/-- The supported kinds: every case of the type switch.  A `Valuer`
wrapper is not itself a switch case (its resolved value is dispatched
instead), and `vUnsupported` stands for every dynamic type without a
case. -/
def supported : Value → Bool
  | Value.vValuer _ _ => false
  | Value.vUnsupported _ => false
  | _ => true

theorem supported_dispatch_ok :
    ∀ v, supported v = true → ∃ L, postgresDispatch v = Except.ok L := by
  intro v h
  cases v with
  | vNil => exact ⟨⟨"NULL"⟩, rfl⟩
  | vRawSQL r => exact ⟨r, rfl⟩
  | vIdentifier s => exact ⟨_, rfl⟩
  | vBool b => exact ⟨_, rfl⟩
  | vBoolPtr p => cases p with
    | none => exact ⟨⟨"NULL"⟩, rfl⟩
    | some b => exact ⟨_, rfl⟩
  | vBytes b => cases b with
    | none => exact ⟨⟨"NULL"⟩, rfl⟩
    | some bs => exact ⟨_, rfl⟩
  | vFloat f => exact ⟨_, rfl⟩
  | vFloatPtr p => cases p with
    | none => exact ⟨⟨"NULL"⟩, rfl⟩
    | some f => exact ⟨_, rfl⟩
  | vInt i => exact ⟨_, rfl⟩
  | vIntPtr p => cases p with
    | none => exact ⟨⟨"NULL"⟩, rfl⟩
    | some i => exact ⟨_, rfl⟩
  | vInt64 i => exact ⟨_, rfl⟩
  | vInt64Ptr p => cases p with
    | none => exact ⟨⟨"NULL"⟩, rfl⟩
    | some i => exact ⟨_, rfl⟩
  | vString s => exact ⟨_, rfl⟩
  | vStringPtr p => cases p with
    | none => exact ⟨⟨"NULL"⟩, rfl⟩
    | some s => exact ⟨_, rfl⟩
  | vTime t => exact ⟨_, rfl⟩
  | vTimePtr p => cases p with
    | none => exact ⟨⟨"NULL"⟩, rfl⟩
    | some t => exact ⟨_, rfl⟩
  | vValuer n r => exact absurd h (by simp [supported])
  | vUnsupported n => exact absurd h (by simp [supported])

theorem supported_literal_ok :
    ∀ v, supported v = true → ∃ L, PostgresLiteral v = Except.ok L := by
  intro v h
  obtain ⟨L, hL⟩ := supported_dispatch_ok v h
  refine ⟨L, ?_⟩
  cases v <;> first
    | exact hL
    | exact absurd h (by simp [supported])

theorem dispatch_error_shape :
    ∀ v e, postgresDispatch v = Except.error e → e = "unknown type " ++ typeName v := by
  intro v e h
  cases hs : supported v with
  | true =>
    obtain ⟨L, hL⟩ := supported_dispatch_ok v hs
    rw [hL] at h
    exact Except.noConfusion h
  | false =>
    cases v with
    | vValuer n r =>
      injection h with h3
      exact h3.symm
    | vUnsupported n =>
      injection h with h3
      exact h3.symm
    | vNil => exact absurd hs (by simp [supported])
    | vRawSQL r => exact absurd hs (by simp [supported])
    | vIdentifier s => exact absurd hs (by simp [supported])
    | vBool b => exact absurd hs (by simp [supported])
    | vBoolPtr p => exact absurd hs (by simp [supported])
    | vBytes b => exact absurd hs (by simp [supported])
    | vFloat f => exact absurd hs (by simp [supported])
    | vFloatPtr p => exact absurd hs (by simp [supported])
    | vInt i => exact absurd hs (by simp [supported])
    | vIntPtr p => exact absurd hs (by simp [supported])
    | vInt64 i => exact absurd hs (by simp [supported])
    | vInt64Ptr p => exact absurd hs (by simp [supported])
    | vString s => exact absurd hs (by simp [supported])
    | vStringPtr p => exact absurd hs (by simp [supported])
    | vTime t => exact absurd hs (by simp [supported])
    | vTimePtr p => exact absurd hs (by simp [supported])

theorem literal_error_shape :
    ∀ v e, PostgresLiteral v = Except.error e →
      (∃ n r, v = Value.vValuer n r) ∨ e = "unknown type " ++ typeName v := by
  intro v e h
  cases v with
  | vValuer n r => exact Or.inl ⟨n, r, rfl⟩
  | vNil => exact Or.inr (dispatch_error_shape _ _ h)
  | vRawSQL r => exact Or.inr (dispatch_error_shape _ _ h)
  | vIdentifier s => exact Or.inr (dispatch_error_shape _ _ h)
  | vBool b => exact Or.inr (dispatch_error_shape _ _ h)
  | vBoolPtr p => exact Or.inr (dispatch_error_shape _ _ h)
  | vBytes b => exact Or.inr (dispatch_error_shape _ _ h)
  | vFloat f => exact Or.inr (dispatch_error_shape _ _ h)
  | vFloatPtr p => exact Or.inr (dispatch_error_shape _ _ h)
  | vInt i => exact Or.inr (dispatch_error_shape _ _ h)
  | vIntPtr p => exact Or.inr (dispatch_error_shape _ _ h)
  | vInt64 i => exact Or.inr (dispatch_error_shape _ _ h)
  | vInt64Ptr p => exact Or.inr (dispatch_error_shape _ _ h)
  | vString s => exact Or.inr (dispatch_error_shape _ _ h)
  | vStringPtr p => exact Or.inr (dispatch_error_shape _ _ h)
  | vTime t => exact Or.inr (dispatch_error_shape _ _ h)
  | vTimePtr p => exact Or.inr (dispatch_error_shape _ _ h)
  | vUnsupported n => exact Or.inr (dispatch_error_shape _ _ h)

/-- C5: a value implementing `driver.Valuer` is resolved exactly once
before kind dispatch — a resolution error is returned as-is with no
literal, a resolved value goes straight to the type switch, and a
resolved value that is itself a `Valuer` is not resolved again but falls
through to the unsupported-type error.  Apart from resolution errors,
the only failure is `unknown type` naming the concrete dynamic kind, and
every value of a supported kind encodes to a literal with no error. -/
theorem C5_valuer_and_error_contract :
    (∀ (n e : String),
      PostgresLiteral (Value.vValuer n (Except.error e)) = Except.error e) ∧
    (∀ (n : String) (v : Value),
      PostgresLiteral (Value.vValuer n (Except.ok v)) = postgresDispatch v) ∧
    (∀ (n n2 : String) (r : Except String Value),
      PostgresLiteral (Value.vValuer n (Except.ok (Value.vValuer n2 r))) =
        Except.error ("unknown type " ++ n2)) ∧
    (∀ n : String,
      PostgresLiteral (Value.vUnsupported n) = Except.error ("unknown type " ++ n)) ∧
    (∀ v : Value, supported v = true → ∃ L, PostgresLiteral v = Except.ok L) ∧
    (∀ (v : Value) (e : String), PostgresLiteral v = Except.error e →
      (∃ n r, v = Value.vValuer n r) ∨ e = "unknown type " ++ typeName v) :=
  ⟨fun _ _ => rfl, fun _ _ => rfl, fun _ _ _ => rfl, fun _ => rfl,
    supported_literal_ok, literal_error_shape⟩

/-- Witness for C5 at concrete inputs: `true` is of a supported kind and
encodes successfully; a failing `Valuer` propagates its error; an
unsupported kind yields its `unknown type` error. -/
theorem C5_valuer_and_error_contract_witness :
    (supported (Value.vBool true) = true ∧
      (∃ L, PostgresLiteral (Value.vBool true) = Except.ok L)) ∧
    PostgresLiteral (Value.vValuer "pq.NullTime" (Except.error "boom")) =
      Except.error "boom" ∧
    PostgresLiteral (Value.vUnsupported "func()") =
      Except.error ("unknown type " ++ "func()") :=
  ⟨⟨rfl, C5_valuer_and_error_contract.2.2.2.2.1 (Value.vBool true) rfl⟩,
    C5_valuer_and_error_contract.1 "pq.NullTime" "boom",
    C5_valuer_and_error_contract.2.2.2.1 "func()"⟩

end Sqltemplate
